import Mathlib

set_option maxRecDepth 100000

/-!
Shallow embedding of `evm-adapters/src/sputnik/cheatcodes/debugger.rs`:
the step-level EVM execution tracer (`Debugger` / `ForgeRuntime` /
`DebugStep` / `OpCode`).  Opcode bytes are modelled as `Nat` values
below 256, stack words and memory bytes as `Nat`, and the external
sputnik `Machine` as an observable state record together with the
outcome of each delegated single-step advance.
-/

namespace Foundry

/-- The byte-to-mnemonic arms of `OpCode::name` (debugger.rs lines
189-334), as a fixed first-match lookup table: one `(byte, mnemonic)`
pair per non-wildcard arm of the Rust `match`, in source order.  The
byte values are the sputnik `Opcode` constants (the standard EVM
opcode bytes). -/
def opcodeTable : List (Nat × String) :=
  [(0x00, "STOP"), (0x01, "ADD"), (0x02, "MUL"), (0x03, "SUB"),
   (0x04, "DIV"), (0x05, "SDIV"), (0x06, "MOD"), (0x07, "SMOD"),
   (0x08, "ADDMOD"), (0x09, "MULMOD"), (0x0a, "EXP"), (0x0b, "SIGNEXTEND"),
   (0x10, "LT"), (0x11, "GT"), (0x12, "SLT"), (0x13, "SGT"),
   (0x14, "EQ"), (0x15, "ISZERO"), (0x16, "AND"), (0x17, "OR"),
   (0x18, "XOR"), (0x19, "NOT"), (0x1a, "BYTE"), (0x1b, "SHL"),
   (0x1c, "SHR"), (0x1d, "SAR"), (0x20, "KECCAK256"), (0x30, "ADDRESS"),
   (0x31, "BALANCE"), (0x32, "ORIGIN"), (0x33, "CALLER"), (0x34, "CALLVALUE"),
   (0x35, "CALLDATALOAD"), (0x36, "CALLDATASIZE"), (0x37, "CALLDATACOPY"),
   (0x38, "CODESIZE"), (0x39, "CODECOPY"), (0x3a, "GASPRICE"),
   (0x3b, "EXTCODESIZE"), (0x3c, "EXTCODECOPY"), (0x3d, "RETURNDATASIZE"),
   (0x3e, "RETURNDATACOPY"), (0x3f, "EXTCODEHASH"), (0x40, "BLOCKHASH"),
   (0x41, "COINBASE"), (0x42, "TIMESTAMP"), (0x43, "NUMBER"),
   (0x44, "DIFFICULTY"), (0x45, "GASLIMIT"), (0x46, "CHAINID"),
   (0x47, "SELFBALANCE"), (0x48, "BASEFEE"), (0x50, "POP"),
   (0x51, "MLOAD"), (0x52, "MSTORE"), (0x53, "MSTORE8"), (0x54, "SLOAD"),
   (0x55, "SSTORE"), (0x56, "JUMP"), (0x57, "JUMPI"), (0x58, "PC"),
   (0x59, "MSIZE"), (0x5a, "GAS"), (0x5b, "JUMPDEST"),
   (0x60, "PUSH1"), (0x61, "PUSH2"), (0x62, "PUSH3"), (0x63, "PUSH4"),
   (0x64, "PUSH5"), (0x65, "PUSH6"), (0x66, "PUSH7"), (0x67, "PUSH8"),
   (0x68, "PUSH9"), (0x69, "PUSH10"), (0x6a, "PUSH11"), (0x6b, "PUSH12"),
   (0x6c, "PUSH13"), (0x6d, "PUSH14"), (0x6e, "PUSH15"), (0x6f, "PUSH16"),
   (0x70, "PUSH17"), (0x71, "PUSH18"), (0x72, "PUSH19"), (0x73, "PUSH20"),
   (0x74, "PUSH21"), (0x75, "PUSH22"), (0x76, "PUSH23"), (0x77, "PUSH24"),
   (0x78, "PUSH25"), (0x79, "PUSH26"), (0x7a, "PUSH27"), (0x7b, "PUSH28"),
   (0x7c, "PUSH29"), (0x7d, "PUSH30"), (0x7e, "PUSH31"), (0x7f, "PUSH32"),
   (0x80, "DUP1"), (0x81, "DUP2"), (0x82, "DUP3"), (0x83, "DUP4"),
   (0x84, "DUP5"), (0x85, "DUP6"), (0x86, "DUP7"), (0x87, "DUP8"),
   (0x88, "DUP9"), (0x89, "DUP10"), (0x8a, "DUP11"), (0x8b, "DUP12"),
   (0x8c, "DUP13"), (0x8d, "DUP14"), (0x8e, "DUP15"), (0x8f, "DUP16"),
   (0x90, "SWAP1"), (0x91, "SWAP2"), (0x92, "SWAP3"), (0x93, "SWAP4"),
   (0x94, "SWAP5"), (0x95, "SWAP6"), (0x96, "SWAP7"), (0x97, "SWAP8"),
   (0x98, "SWAP9"), (0x99, "SWAP10"), (0x9a, "SWAP11"), (0x9b, "SWAP12"),
   (0x9c, "SWAP13"), (0x9d, "SWAP14"), (0x9e, "SWAP15"), (0x9f, "SWAP16"),
   (0xa0, "LOG0"), (0xa1, "LOG1"), (0xa2, "LOG2"), (0xa3, "LOG3"),
   (0xa4, "LOG4"), (0xf0, "CREATE"), (0xf1, "CALL"), (0xf2, "CALLCODE"),
   (0xf3, "RETURN"), (0xf4, "DELEGATECALL"), (0xf5, "CREATE2"),
   (0xfa, "STATICCALL"), (0xfd, "REVERT"), (0xfe, "INVALID"),
   (0xff, "SELFDESTRUCT")]

/-- Embeds `OpCode::name` (debugger.rs lines 188-335): an exhaustive
match on the raw opcode byte, each specific arm yielding its mnemonic
and the wildcard arm yielding `"UNDEFINED"`.  A Rust `match` over
disjoint byte literals is first-match lookup in the table of its
arms. -/
def opcodeName (b : Nat) : String :=
  match opcodeTable.find? (fun p => p.1 == b) with
  | some p => p.2
  | none => "UNDEFINED"

/-- The opcode bytes that have a specific (non-wildcard) arm in
`OpCode::name`. -/
def definedBytes : List Nat :=
  opcodeTable.map Prod.fst

/-- Embeds sputnik's `Opcode::is_push` (external engine crate): returns
`some n` with `n = byte - 0x5f` for the push family `0x60..=0x7f`
(so `n` ranges over `1..32`), `none` otherwise. -/
def is_push (b : Nat) : Option Nat :=
  if 0x60 ≤ b ∧ b ≤ 0x7f then some (b - 0x5f) else none

/-- Embeds `OpCode::push_size` (debugger.rs lines 337-339): delegates to
the engine's `is_push`. -/
def push_size (b : Nat) : Option Nat :=
  is_push b

/-- One lowercase hexadecimal digit, as produced by Rust `{:02x}`
formatting. -/
def hexDigit (n : Nat) : Char :=
  if n < 10 then Char.ofNat (48 + n) else Char.ofNat (87 + n)

/-- Two-lowercase-hex-digit rendering of a byte, as produced by Rust
`{:02x}` formatting for values below 256. -/
def hex2 (b : Nat) : String :=
  String.mk [hexDigit (b / 16), hexDigit (b % 16)]

/-- Embeds `impl Display for OpCode` (debugger.rs lines 342-353): the
mnemonic when it is not `"UNDEFINED"`, otherwise
`"UNDEFINED(0x"` ++ the byte in two lowercase hex digits ++ `")"`. -/
def displayOpCode (b : Nat) : String :=
  let n := opcodeName b
  if n = "UNDEFINED" then "UNDEFINED(0x" ++ hex2 b ++ ")" else n

/-- Embeds the `DebugStep` struct (debugger.rs lines 18-25): one
recorded execution step.  `op` holds the raw opcode byte wrapped by
`OpCode`; stack words (`H256`) and memory bytes are modelled as
`Nat`. -/
structure DebugStep where
  pc : Nat
  stack : List Nat
  memory : List Nat
  op : Nat
  push_bytes : Option (List Nat)
  deriving DecidableEq, Repr

/-- The observable state of the sputnik `Machine` read by
`Debugger::debug_step`: `position()` (`Ok pos` modelled as `some pos`,
`Err` as `none`), `inspect()` (the currently decodable opcode byte, or
`none` when no instruction is decodable; sputnik's `inspect` exposes
the machine's own stack, the same one `stack()` returns), `stack()`
(bottom-first) and `memory()`. -/
structure MachineState where
  position : Option Nat
  inspect : Option Nat
  stack : List Nat
  memory : List Nat
  deriving DecidableEq, Repr

/-- The outcome of one delegated single-step advance
(`Runtime::step`): `Ok(())` to continue, `Err(Capture::Exit r)` on
termination, `Err(Capture::Trap _)` for a mid-step suspension.  The
exit payload type `E` stands for sputnik's `ExitReason`, which the
driving loops never inspect. -/
inductive Advance (E : Type) where
  | ok
  | exit (r : E)
  | trap
  deriving DecidableEq, Repr

/-- The fatal faults `debug_step` itself can raise: the
`panic!("PUSH{} exceeds codesize?")` on an immediate-operand window
failing the bounds check (debugger.rs line 128). -/
inductive StepFatal where
  | operandOverrun (n : Nat)
  deriving DecidableEq, Repr

/-- The overall outcome of a driving loop: `exited r` when the
delegated advance returned `Err(Capture::Exit r)`; `operandOverrun`
when `debug_step` panicked on the bounds check; `suspendFatal` for the
`unreachable!("Trap is Infallible")` panic; `diverged` when the
supplied finite behavior ran out before any terminal advance (the Rust
`while` loop would still be running). -/
inductive RunResult (E : Type) where
  | diverged
  | exited (r : E)
  | operandOverrun (n : Nat)
  | suspendFatal
  deriving DecidableEq, Repr

/-- Embeds the pc computation of `Debugger::debug_step` (debugger.rs
lines 114-118): the engine's reported position when `position()`
returns `Ok`, with explicit fallback `0` otherwise. -/
def pcOf (s : MachineState) : Nat :=
  match s.position with
  | some pos => pos
  | none => 0

/-- Embeds the state-reading and step-recording part of
`Debugger::debug_step` (debugger.rs lines 109-151): computes `pc` via
`pcOf`; on a decodable instruction slices the push immediate
`code[pc+1 .. pc+1+push_size)` after the bounds check
`push_end < code.len()` (panicking otherwise), and records the cloned,
reversed stack and the memory; on no decodable instruction records the
sentinel `INVALID` (`0xfe`) opcode with no immediate.  Returns the
`DebugStep` pushed onto `self.steps`, or the fatal panic. -/
def captureStep (code : List Nat) (s : MachineState) :
    Except StepFatal DebugStep :=
  let pc := pcOf s
  match s.inspect with
  | some op =>
    match push_size op with
    | some n =>
      let push_start := pc + 1
      let push_end := pc + 1 + n
      if push_end < code.length then
        Except.ok { pc := pc, stack := s.stack.reverse, memory := s.memory,
                    op := op,
                    push_bytes := some ((code.drop push_start).take (push_end - push_start)) }
      else
        Except.error (StepFatal.operandOverrun n)
    | none =>
      Except.ok { pc := pc, stack := s.stack.reverse, memory := s.memory,
                  op := op, push_bytes := none }
  | none =>
    Except.ok { pc := pc, stack := s.stack.reverse, memory := s.memory,
                op := 0xfe, push_bytes := none }

/-- Embeds `Debugger::debug_run` (debugger.rs lines 156-175) together
with the per-iteration `debug_step`: the engine's behavior is the
finite sequence of observable machine states paired with the outcome
of the delegated advance from that state.  Each iteration appends the
captured step to the trace and then dispatches on the advance outcome
exactly as the Rust loop does; a bounds-check panic inside
`debug_step` aborts before appending. -/
def debug_run {E : Type} (code : List Nat) :
    List (MachineState × Advance E) → List DebugStep →
    RunResult E × List DebugStep
  | [], acc => (RunResult.diverged, acc)
  | (s, adv) :: rest, acc =>
    match captureStep code s with
    | Except.error (StepFatal.operandOverrun n) =>
        (RunResult.operandOverrun n, acc)
    | Except.ok st =>
      match adv with
      | Advance.ok => debug_run code rest (acc ++ [st])
      | Advance.exit r => (RunResult.exited r, acc ++ [st])
      | Advance.trap => (RunResult.suspendFatal, acc ++ [st])

/-- Embeds `ForgeRuntime::run` (debugger.rs lines 72-91): the
non-recording driving loop over the same sequence of advance
outcomes. -/
def forgeRun {E : Type} : List (Advance E) → RunResult E
  | [] => RunResult.diverged
  | Advance.ok :: rest => forgeRun rest
  | Advance.exit r :: _ => RunResult.exited r
  | Advance.trap :: _ => RunResult.suspendFatal

/-- Whether `debug_step`'s recording phase panics on this state:
`true` exactly when `captureStep` raises the bounds-check fatal. -/
def stepFaults (code : List Nat) (s : MachineState) : Bool :=
  match captureStep code s with
  | Except.ok _ => false
  | Except.error _ => true

/-- Structural facts about every successfully captured step: the
recorded stack is the reversed engine stack, the memory is the
snapshot, the pc is the position with fallback `0`, and the immediate
is present with the exact push size iff the recorded opcode is
push-family. -/
theorem captureStep_ok_inv {code : List Nat} {s : MachineState} {st : DebugStep}
    (h : captureStep code s = Except.ok st) :
    st.stack = s.stack.reverse ∧ st.memory = s.memory ∧
    st.pc = pcOf s ∧
    (st.push_bytes.isSome ↔ (push_size st.op).isSome) ∧
    (∀ bs n, st.push_bytes = some bs → push_size st.op = some n →
      bs.length = n) := by
  rcases hq : s.inspect with _ | op
  · simp only [captureStep, hq] at h
    injection h with h
    subst h
    refine ⟨rfl, rfl, rfl, by simp [push_size, is_push], ?_⟩
    intro bs n hbs hn
    simp at hbs
  · simp only [captureStep, hq] at h
    rcases hp : push_size op with _ | n
    · simp only [hp] at h
      injection h with h
      subst h
      refine ⟨rfl, rfl, rfl, ?_, ?_⟩
      · simp [hp]
      · intro bs n hbs hn
        simp at hbs
    · simp only [hp] at h
      by_cases hlt : pcOf s + 1 + n < code.length
      · rw [if_pos hlt] at h
        injection h with h
        subst h
        refine ⟨rfl, rfl, rfl, ?_, ?_⟩
        · simp [hp]
        · intro bs m hbs hm
          simp only [hp] at hm
          obtain rfl : n = m := by injection hm
          obtain rfl :
              (code.drop (pcOf s + 1)).take (pcOf s + 1 + n - (pcOf s + 1)) = bs := by
            injection hbs
          simp only [List.length_take, List.length_drop]
          omega
      · rw [if_neg hlt] at h
        simp at h

/-- Every step in a trace accumulated by `debug_run` was already in the
accumulator or was produced by a successful `captureStep`. -/
theorem debug_run_mem_aux {E : Type} (code : List Nat)
    (behavior : List (MachineState × Advance E)) :
    ∀ (acc : List DebugStep) (st : DebugStep),
      st ∈ (debug_run code behavior acc).2 →
      st ∈ acc ∨ ∃ s, captureStep code s = Except.ok st := by
  induction behavior with
  | nil =>
      intro acc st h
      exact Or.inl h
  | cons p rest ih =>
      obtain ⟨s, adv⟩ := p
      intro acc st h
      rcases hc : captureStep code s with f | st0
      · rcases f with ⟨n⟩
        simp only [debug_run, hc] at h
        exact Or.inl h
      · cases adv with
        | ok =>
            simp only [debug_run, hc] at h
            rcases ih (acc ++ [st0]) st h with hmem | hex
            · rcases List.mem_append.mp hmem with h1 | h2
              · exact Or.inl h1
              · obtain rfl := List.mem_singleton.mp h2
                exact Or.inr ⟨s, hc⟩
            · exact Or.inr hex
        | exit r =>
            simp only [debug_run, hc] at h
            rcases List.mem_append.mp h with h1 | h2
            · exact Or.inl h1
            · obtain rfl := List.mem_singleton.mp h2
              exact Or.inr ⟨s, hc⟩
        | trap =>
            simp only [debug_run, hc] at h
            rcases List.mem_append.mp h with h1 | h2
            · exact Or.inl h1
            · obtain rfl := List.mem_singleton.mp h2
              exact Or.inr ⟨s, hc⟩

/-- A run whose behavior is all-continue advances followed by one
terminal exit, with no recording fault anywhere, returns that exit and
appends exactly one step per advance. -/
theorem debug_run_complete_aux {E : Type} (code : List Nat) (r : E) :
    ∀ (pre : List (MachineState × Advance E)) (s : MachineState)
      (acc : List DebugStep),
      (∀ p ∈ pre, p.2 = Advance.ok) →
      (∀ p ∈ pre, stepFaults code p.1 = false) →
      stepFaults code s = false →
      (debug_run code (pre ++ [(s, Advance.exit r)]) acc).1 = RunResult.exited r ∧
      (debug_run code (pre ++ [(s, Advance.exit r)]) acc).2.length =
        acc.length + (pre.length + 1) := by
  intro pre
  induction pre with
  | nil =>
      intro s acc _ _ hs
      rcases hc : captureStep code s with f | st0
      · rw [stepFaults, hc] at hs
        simp at hs
      · simp only [List.nil_append, debug_run, hc]
        exact ⟨trivial, by simp⟩
  | cons p rest ih =>
      obtain ⟨s0, a0⟩ := p
      intro s acc hok hnf hs
      have ha0 : a0 = Advance.ok := hok (s0, a0) (List.mem_cons_self _ _)
      subst ha0
      have h0 : stepFaults code s0 = false := hnf (s0, Advance.ok) (List.mem_cons_self _ _)
      rcases hc : captureStep code s0 with f | st0
      · rw [stepFaults, hc] at h0
        simp at h0
      · simp only [List.cons_append, debug_run, hc]
        have := ih s (acc ++ [st0])
          (fun p hp => hok p (List.mem_cons_of_mem _ hp))
          (fun p hp => hnf p (List.mem_cons_of_mem _ hp)) hs
        refine ⟨this.1, ?_⟩
        show (debug_run code (rest ++ [(s, Advance.exit r)]) (acc ++ [st0])).2.length =
          acc.length + (((s0, Advance.ok) :: rest).length + 1)
        rw [this.2]
        simp
        omega

/-- If no advance in the behavior is a trap, `debug_run` never
reaches the suspension panic. -/
theorem debug_run_no_trap_aux {E : Type} (code : List Nat)
    (behavior : List (MachineState × Advance E)) :
    ∀ (acc : List DebugStep),
      (∀ p ∈ behavior, p.2 ≠ Advance.trap) →
      (debug_run code behavior acc).1 ≠ RunResult.suspendFatal := by
  induction behavior with
  | nil =>
      intro acc _ h
      simp only [debug_run] at h
      cases h
  | cons p rest ih =>
      obtain ⟨s, adv⟩ := p
      intro acc hnt
      rcases hc : captureStep code s with f | st0
      · rcases f with ⟨n⟩
        simp only [debug_run, hc]
        intro h
        cases h
      · cases adv with
        | ok =>
            simp only [debug_run, hc]
            exact ih (acc ++ [st0]) (fun p hp => hnt p (List.mem_cons_of_mem _ hp))
        | exit r =>
            simp only [debug_run, hc]
            intro h
            cases h
        | trap =>
            exact absurd rfl (hnt (s, Advance.trap) (List.mem_cons_self _ _))

/-- When the recording loop reaches a terminal exit, the non-recording
loop over the same advance outcomes reaches the same exit. -/
theorem debug_run_exit_refines_aux {E : Type} (code : List Nat)
    (behavior : List (MachineState × Advance E)) :
    ∀ (acc : List DebugStep) (r : E),
      (debug_run code behavior acc).1 = RunResult.exited r →
      forgeRun (behavior.map Prod.snd) = RunResult.exited r := by
  induction behavior with
  | nil =>
      intro acc r h
      simp only [debug_run] at h
      cases h
  | cons p rest ih =>
      obtain ⟨s, adv⟩ := p
      intro acc r h
      rcases hc : captureStep code s with f | st0
      · rcases f with ⟨n⟩
        simp only [debug_run, hc] at h
        cases h
      · cases adv with
        | ok =>
            simp only [debug_run, hc] at h
            simpa [forgeRun] using ih (acc ++ [st0]) r h
        | exit r0 =>
            simp only [debug_run, hc] at h
            obtain rfl : r0 = r := by injection h
            simp [forgeRun]
        | trap =>
            simp only [debug_run, hc] at h
            cases h

/-- The spec's end-to-end example code buffer: `PUSH1 0x05; STOP`. -/
def sampleCode : List Nat := [0x60, 0x05, 0x00]

/-- Machine state about to execute the `PUSH1` of `sampleCode`. -/
def samplePushState : MachineState :=
  { position := some 0, inspect := some 0x60, stack := [], memory := [] }

/-- Machine state about to execute the `STOP` of `sampleCode`, with
the pushed word on the stack. -/
def sampleStopState : MachineState :=
  { position := some 2, inspect := some 0x00, stack := [5], memory := [] }

/-- Engine behavior of the end-to-end example: the `PUSH1` advance
continues, the `STOP` advance exits (exit payload modelled as `0`). -/
def sampleBehavior : List (MachineState × Advance Nat) :=
  [(samplePushState, Advance.ok), (sampleStopState, Advance.exit 0)]

/-- A machine state with no reportable position and no decodable
instruction, as after termination. -/
def sampleTerminalState : MachineState :=
  { position := none, inspect := none, stack := [7, 9], memory := [1] }

/-- C1: the claim reads "the run fails fatally with
`OperandOverrunFatal` ... if and only if the window upper bound
`pc+1+pushSize` exceeds the code buffer's length".  The code's bounds
check (debugger.rs line 125) is `push_end < code.len()`, so it also
panics when the window ends exactly at the code end: on the two-byte
buffer `[0x60, 0x05]` with the `PUSH1` at pc `0`, the upper bound
`0+1+1 = 2` does not exceed the length `2`, yet `captureStep` raises
the overrun fatal instead of recording the immediate `[0x05]`. -/
theorem c1_overrun_at_exact_code_end :
    captureStep [0x60, 0x05]
        { position := some 0, inspect := some 0x60, stack := [], memory := [] } =
      Except.error (StepFatal.operandOverrun 1) ∧
    (0 : Nat) + 1 + 1 ≤ ([0x60, 0x05] : List Nat).length :=
  ⟨rfl, by decide⟩

/-- C2: a run over all-continue advances ending in one terminal exit,
with no recording fault, returns that exit with a trace of exactly one
step per executed instruction, the terminating one included. -/
theorem c2_trace_length {E : Type} (code : List Nat)
    (pre : List (MachineState × Advance E)) (s : MachineState) (r : E)
    (hok : ∀ p ∈ pre, p.2 = Advance.ok)
    (hnf : ∀ p ∈ pre, stepFaults code p.1 = false)
    (hs : stepFaults code s = false) :
    (debug_run code (pre ++ [(s, Advance.exit r)]) []).1 = RunResult.exited r ∧
    (debug_run code (pre ++ [(s, Advance.exit r)]) []).2.length = pre.length + 1 := by
  have h := debug_run_complete_aux code r pre s [] hok hnf hs
  exact ⟨h.1, by rw [h.2]; simp⟩

/-- Witness for C2 on the spec's end-to-end example. -/
theorem c2_trace_length_witness :
    (debug_run sampleCode
        ([(samplePushState, Advance.ok)] ++ [(sampleStopState, Advance.exit (0 : Nat))])
        []).1 = RunResult.exited 0 ∧
    (debug_run sampleCode
        ([(samplePushState, Advance.ok)] ++ [(sampleStopState, Advance.exit (0 : Nat))])
        []).2.length = 1 + 1 :=
  c2_trace_length sampleCode [(samplePushState, Advance.ok)] sampleStopState 0
    (by decide) (by decide) (by decide)

/-- C3: every step in a trace accumulated by `debug_run` carries an
immediate iff its opcode is push-family, and the immediate's length
then equals the push size exactly. -/
theorem c3_immediate_iff_push {E : Type} (code : List Nat)
    (behavior : List (MachineState × Advance E)) (st : DebugStep)
    (h : st ∈ (debug_run code behavior []).2) :
    (st.push_bytes.isSome ↔ (push_size st.op).isSome) ∧
    ∀ bs n, st.push_bytes = some bs → push_size st.op = some n →
      bs.length = n := by
  rcases debug_run_mem_aux code behavior [] st h with hmem | ⟨s, hs⟩
  · cases hmem
  · exact ⟨(captureStep_ok_inv hs).2.2.2.1, (captureStep_ok_inv hs).2.2.2.2⟩

/-- Witness for C3 at the recorded `PUSH1` step of the example run. -/
theorem c3_immediate_iff_push_witness :
    ((DebugStep.mk 0 [] [] 0x60 (some [0x05])).push_bytes.isSome ↔
      (push_size (DebugStep.mk 0 [] [] 0x60 (some [0x05])).op).isSome) ∧
    ∀ bs n, (DebugStep.mk 0 [] [] 0x60 (some [0x05])).push_bytes = some bs →
      push_size (DebugStep.mk 0 [] [] 0x60 (some [0x05])).op = some n →
      bs.length = n :=
  c3_immediate_iff_push sampleCode sampleBehavior _ (by decide)

/-- C4: every recorded step's stack is the engine's raw bottom-first
stack reversed, on the decodable-instruction path and the fallback
path alike (both paths read the machine's one stack, so index 0 of the
record is top-of-stack). -/
theorem c4_stack_reversed (code : List Nat) (s : MachineState) (st : DebugStep)
    (h : captureStep code s = Except.ok st) :
    st.stack = s.stack.reverse :=
  (captureStep_ok_inv h).1

/-- Witness for C4 at the `STOP` step of the example run. -/
theorem c4_stack_reversed_witness :
    (DebugStep.mk 2 [5] [] 0x00 none).stack = sampleStopState.stack.reverse :=
  c4_stack_reversed sampleCode sampleStopState _ rfl

/-- C5: `OpCode::name` is total — every byte below 256 yields a
nonempty mnemonic string — and yields the literal `"UNDEFINED"`
exactly on the bytes without a specific arm. -/
theorem c5_name_total :
    ∀ b : Fin 256, opcodeName b.val ≠ "" ∧
      (opcodeName b.val = "UNDEFINED" ↔ b.val ∉ definedBytes) := by
  decide

/-- C6: the `Display` rendering of an opcode byte is its exact
mnemonic when the byte has a specific arm, and
`"UNDEFINED(0x"` ++ two lowercase hex digits ++ `")"` otherwise; in
particular the undefined byte `0x0c` renders as `"UNDEFINED(0x0c)"`
and the add opcode byte `0x01` as `"ADD"`. -/
theorem c6_display :
    (∀ b : Fin 256, displayOpCode b.val =
      if b.val ∈ definedBytes then opcodeName b.val
      else "UNDEFINED(0x" ++ hex2 b.val ++ ")") ∧
    displayOpCode 0x0c = "UNDEFINED(0x0c)" ∧
    displayOpCode 0x01 = "ADD" :=
  ⟨by decide, by decide, by decide⟩

/-- C7: when the engine cannot decode a current instruction,
`captureStep` still succeeds and records the sentinel `INVALID` opcode
byte `0xfe` (whose mnemonic is `"INVALID"`), no immediate, the
reversed raw stack and the full memory. -/
theorem c7_fallback_step (code : List Nat) (s : MachineState)
    (h : s.inspect = none) :
    captureStep code s = Except.ok
      { pc := pcOf s, stack := s.stack.reverse, memory := s.memory,
        op := 0xfe, push_bytes := none } ∧
    opcodeName 0xfe = "INVALID" := by
  constructor
  · simp only [captureStep, h]
  · decide

/-- Witness for C7 on a terminal machine state. -/
theorem c7_fallback_step_witness :
    captureStep sampleCode sampleTerminalState =
      Except.ok
        { pc := pcOf sampleTerminalState,
          stack := sampleTerminalState.stack.reverse,
          memory := sampleTerminalState.memory,
          op := 0xfe, push_bytes := none } ∧
    opcodeName 0xfe = "INVALID" :=
  c7_fallback_step sampleCode sampleTerminalState rfl

/-- C8: the recorded pc equals the engine's reported position when the
engine reports one, and `0` when it cannot. -/
theorem c8_pc (code : List Nat) (s : MachineState) (st : DebugStep)
    (h : captureStep code s = Except.ok st) :
    (∀ p, s.position = some p → st.pc = p) ∧
    (s.position = none → st.pc = 0) := by
  have hpc := (captureStep_ok_inv h).2.2.1
  constructor
  · intro p hp
    rw [hpc, pcOf, hp]
  · intro hp
    rw [hpc, pcOf, hp]

/-- Witness for C8 at the `STOP` step of the example run. -/
theorem c8_pc_witness :
    (∀ p, sampleStopState.position = some p →
      (DebugStep.mk 2 [5] [] 0x00 none).pc = p) ∧
    (sampleStopState.position = none → (DebugStep.mk 2 [5] [] 0x00 none).pc = 0) :=
  c8_pc sampleCode sampleStopState _ rfl

/-- C9: under the synchronous-integration precondition that no
delegated advance signals a mid-step suspension, `debug_run` never
reaches the suspension panic. -/
theorem c9_no_suspend {E : Type} (code : List Nat)
    (behavior : List (MachineState × Advance E))
    (h : ∀ p ∈ behavior, p.2 ≠ Advance.trap) :
    (debug_run code behavior []).1 ≠ RunResult.suspendFatal :=
  debug_run_no_trap_aux code behavior [] h

/-- Witness for C9 on the example behavior. -/
theorem c9_no_suspend_witness :
    (debug_run sampleCode sampleBehavior []).1 ≠ RunResult.suspendFatal :=
  c9_no_suspend sampleCode sampleBehavior (by decide)

/-- C10: when the recording loop finishes with a terminal exit (no
recorder fault), the non-recording `ForgeRuntime::run` loop over the
same sequence of advance outcomes returns the same terminal value:
recording does not change the driving loop's control flow or
result. -/
theorem c10_run_refinement {E : Type} (code : List Nat)
    (behavior : List (MachineState × Advance E)) (r : E)
    (h : (debug_run code behavior []).1 = RunResult.exited r) :
    forgeRun (behavior.map Prod.snd) = RunResult.exited r :=
  debug_run_exit_refines_aux code behavior [] r h

/-- Witness for C10 on the example behavior. -/
theorem c10_run_refinement_witness :
    forgeRun (sampleBehavior.map Prod.snd) = RunResult.exited 0 :=
  c10_run_refinement sampleCode sampleBehavior 0 (by decide)

end Foundry
